import Mathlib

/-!
# Playlist / playback state machine of `script.js` (class `MusicPlayer`)

A shallow embedding of the player object of `src/script.js`.

* The fields of `MusicPlayer` that the logic reads and writes (`playlist`,
  `currentTrackIndex`, `isPlaying`, `isDragging`, `isRepeatAll`) are the fields of
  `Player`.  `localStorage` is the field `storage`.
* Calls that leave the object (media element, dialogs, timers, storage writes) are
  appended, in program order, to `Player.trace`.
* Writes to the display (`textContent`, `innerHTML`, `style`, `classList`,
  `updatePlaylistDisplay`, `resetProgress`) change no field the logic reads again and
  are left out, except the "No songs in playlist" placeholder of `loadTrack`.
* Indices are `Int` and byte sizes are `Nat`; pointer coordinates and seek times are
  exact rationals, with `none` for `NaN`.
* The argument of `formatTime` is a `JsNumber`: `NaN`, an infinity, or a finite value;
  its division rounds to the nearest double as IEEE 754 binary64 does.
* `JSON.stringify` followed by `JSON.parse` is the identity on the records that
  `savePlaylist` writes, so the store holds the decoded records.
-/

namespace MusicPlayer

/-! ## Data model -/

/-- A playlist entry, as built in `handleFileUpload` (lines 342-349). -/
structure Track where
  id : String
  title : String
  artist : String
  src : String
  albumArt : String
  saved : Bool
  deriving DecidableEq, Repr

/-- The record `savePlaylist` writes for one track (lines 49-57): `src` is `null`
(here `none`) for a blob URL. -/
structure StoredTrack where
  id : String
  title : String
  artist : String
  albumArt : String
  saved : Bool
  src : Option String
  deriving DecidableEq, Repr

/-- The two `localStorage` keys of the player; `none` is an absent key. -/
structure Storage where
  musicPlayerPlaylist : Option (List StoredTrack)
  musicPlayerCurrentIndex : Option String
  deriving DecidableEq, Repr

/-- Calls that leave the player object, in the order the code makes them. -/
inductive Effect where
  /-- The call `this.audio.pause()`. -/
  | pause
  /-- The call `this.audio.play()`. -/
  | play
  /-- The call `setTimeout(() => this.play(), ms)` of `nextTrack`. -/
  | deferPlay (ms : Nat)
  /-- The assignment `this.audio.src = src`. -/
  | load (src : String)
  /-- The two `localStorage.setItem` calls of `savePlaylist`. -/
  | persist
  /-- The call `alert(msg)`. -/
  | alert (msg : String)
  /-- The call `confirm(msg)`. -/
  | confirm (msg : String)
  /-- The call `URL.revokeObjectURL(url)`. -/
  | revokeObjectURL (url : String)
  /-- The "No songs in playlist" display of `loadTrack` and `init`. -/
  | placeholder
  /-- An uncaught `TypeError` that ends the running handler. -/
  | typeError
  deriving DecidableEq, Repr

/-- The fields of `MusicPlayer` (lines 20-25), the store, and the trace of effects. -/
structure Player where
  playlist : List Track
  currentTrackIndex : Int
  isPlaying : Bool
  isDragging : Bool
  isRepeatAll : Bool
  storage : Storage
  trace : List Effect
  deriving DecidableEq, Repr

/-- The field values the constructor assigns (lines 20-25), over a given store. -/
def initial (st : Storage) : Player :=
  { playlist := [], currentTrackIndex := 0, isPlaying := false, isDragging := false,
    isRepeatAll := true, storage := st, trace := [] }

/-- The test `s.startsWith(pre)`, on the characters of the two strings. -/
def startsWith (s pre : String) : Bool :=
  pre.data.isPrefixOf s.data

/-- The array read `this.playlist[index]`: `none` is `undefined`. -/
def getTrack (pl : List Track) (index : Int) : Option Track :=
  if index < 0 then none else pl[index.toNat]?

/-! ## Persistence (lines 47-83) -/

/-- The arrow function mapped over the playlist in `savePlaylist` (lines 49-57). -/
def toStored (track : Track) : StoredTrack :=
  { id := track.id, title := track.title, artist := track.artist,
    albumArt := track.albumArt, saved := track.saved || false,
    src := if startsWith track.src "blob:" then none else some track.src }

/-- The method `savePlaylist` (lines 47-63); both `setItem` calls succeed. -/
def savePlaylist (p : Player) : Player :=
  { p with
    storage :=
      { musicPlayerPlaylist := some (p.playlist.map toStored),
        musicPlayerCurrentIndex := some (toString p.currentTrackIndex) },
    trace := p.trace ++ [Effect.persist] }

/-- A parsed record that passes `track.src !== null` (line 74), as a playlist entry. -/
def fromStored (t : StoredTrack) : Option Track :=
  match t.src with
  | none => none
  | some src =>
    some { id := t.id, title := t.title, artist := t.artist, src := src,
           albumArt := t.albumArt, saved := t.saved }

/-- White space that `parseInt` skips at the start of its argument. -/
def isJsWhiteSpace (c : Char) : Bool :=
  c.val ∈ [0x09, 0x0A, 0x0B, 0x0C, 0x0D, 0x20, 0xA0, 0x1680, 0x2028, 0x2029, 0x202F,
           0x205F, 0x3000, 0xFEFF]
    || (0x2000 ≤ c.val && c.val ≤ 0x200A)

/-- The value of a digit of `parseInt` in the given radix, if it is one. -/
def digitValue (radix : Nat) (c : Char) : Option Nat :=
  let v : Option Nat :=
    if '0' ≤ c ∧ c ≤ '9' then some (c.toNat - '0'.toNat)
    else if 'a' ≤ c ∧ c ≤ 'z' then some (c.toNat - 'a'.toNat + 10)
    else if 'A' ≤ c ∧ c ≤ 'Z' then some (c.toNat - 'A'.toNat + 10)
    else none
  v.bind fun d => if d < radix then some d else none

/-- The longest run of digits at the start of `cs`, read in `radix`; `none` when
there is no digit. -/
def parseDigits (radix : Nat) : List Char → Option Nat → Option Nat
  | [], acc => acc
  | c :: cs, acc =>
    match digitValue radix c with
    | none => acc
    | some d => parseDigits radix cs (some (acc.getD 0 * radix + d))

/-- The call `parseInt(s)` with no radix: white space, a sign, an optional `0x`, then
digits; `none` is `NaN`. -/
def parseInt (s : String) : Option Int :=
  let cs := s.data.dropWhile isJsWhiteSpace
  let (neg, cs) :=
    match cs with
    | '-' :: r => (true, r)
    | '+' :: r => (false, r)
    | r => (false, r)
  let mag : Option Nat :=
    match cs with
    | '0' :: 'x' :: r => parseDigits 16 r none
    | '0' :: 'X' :: r => parseDigits 16 r none
    | r => parseDigits 10 r none
  mag.map fun n => if neg then -(n : Int) else (n : Int)

/-- The method `loadSavedPlaylist` (lines 66-83). -/
def loadSavedPlaylist (p : Player) : Player :=
  match p.storage.musicPlayerPlaylist with
  | none => p
  | some parsedPlaylist =>
    let p := { p with playlist := parsedPlaylist.filterMap fromStored }
    match p.storage.musicPlayerCurrentIndex with
    | none => p
    | some savedIndex =>
      if savedIndex ≠ "" then
        match parseInt savedIndex with
        | none => p
        | some n =>
          if n < p.playlist.length then { p with currentTrackIndex := n } else p
      else p

/-! ## Playback controller (lines 144-242) -/

/-- The method `pause` (lines 158-163). -/
def pause (p : Player) : Player :=
  { p with isPlaying := false, trace := p.trace ++ [Effect.pause] }

/-- The method `play` (lines 144-156): the request goes to the media element and
`isPlaying` becomes whether the element accepted it (`ok`). -/
def play (ok : Bool) (p : Player) : Player :=
  { p with isPlaying := ok, trace := p.trace ++ [Effect.play] }

/-- The method `loadTrack` (lines 213-242). -/
def loadTrack (index : Int) (p : Player) : Player :=
  match getTrack p.playlist index with
  | none => { p with trace := p.trace ++ [Effect.placeholder] }
  | some track =>
    let p := pause p
    let p := { p with trace := p.trace ++ [Effect.load track.src] }
    let p := { p with currentTrackIndex := index }
    savePlaylist p

/-- The method `previousTrack` (lines 165-174). -/
def previousTrack (playOk : Bool) (p : Player) : Player :=
  if p.playlist.length = 0 then p
  else
    let p := { p with
      currentTrackIndex :=
        if p.currentTrackIndex = 0 then (p.playlist.length : Int) - 1
        else p.currentTrackIndex - 1 }
    let p := loadTrack p.currentTrackIndex p
    if p.isPlaying then play playOk p else p

/-- The method `nextTrack` (lines 176-201). -/
def nextTrack (p : Player) : Player :=
  if p.playlist.length = 0 then p
  else
    let wasPlaying := p.isPlaying
    if p.isRepeatAll then
      let p := { p with
        currentTrackIndex := Int.tmod (p.currentTrackIndex + 1) (p.playlist.length : Int) }
      let p := loadTrack p.currentTrackIndex p
      if wasPlaying then { p with trace := p.trace ++ [Effect.deferPlay 100] } else p
    else if p.currentTrackIndex < (p.playlist.length : Int) - 1 then
      let p := { p with currentTrackIndex := p.currentTrackIndex + 1 }
      let p := loadTrack p.currentTrackIndex p
      if wasPlaying then { p with trace := p.trace ++ [Effect.deferPlay 100] } else p
    else
      pause p

/-- The method `init` (lines 30-44), without the listener set-up and the volume. -/
def init (p : Player) : Player :=
  let p := loadSavedPlaylist p
  if p.playlist.length > 0 then loadTrack 0 p
  else { p with trace := p.trace ++ [Effect.placeholder] }

/-! ## Track repository (lines 335-370, 442-470) -/

/-- The method `removeTrack` (lines 442-470); `confirmed` is the answer of the
`confirm` dialog.  Reading `.src` of a missing entry throws before anything changes. -/
def removeTrack (confirmed : Bool) (index : Int) (p : Player) : Player :=
  if p.playlist.length ≤ 1 then
    { p with trace := p.trace ++ [Effect.alert "Cannot remove the last track in the playlist"] }
  else
    let p := { p with
      trace := p.trace ++ [Effect.confirm "Are you sure you want to remove this track?"] }
    if confirmed then
      match getTrack p.playlist index with
      | none => { p with trace := p.trace ++ [Effect.typeError] }
      | some track =>
        let p :=
          if startsWith track.src "blob:" then
            { p with trace := p.trace ++ [Effect.revokeObjectURL track.src] }
          else p
        let p := { p with playlist := p.playlist.eraseIdx index.toNat }
        let p :=
          if index = p.currentTrackIndex then
            let p :=
              if index ≥ (p.playlist.length : Int) then
                { p with currentTrackIndex := (p.playlist.length : Int) - 1 }
              else p
            loadTrack p.currentTrackIndex p
          else if index < p.currentTrackIndex then
            { p with currentTrackIndex := p.currentTrackIndex - 1 }
          else p
        savePlaylist p
    else p

/-- A candidate of the file picker: the fields of the `File` that the code reads. -/
structure File where
  name : String
  type : String
  size : Nat
  deriving DecidableEq, Repr

/-- One entry of an upload batch: the file, with the values `generateTrackId()` and
`URL.createObjectURL(file)` return while it is processed. -/
structure Upload where
  file : File
  trackId : String
  url : String
  deriving DecidableEq, Repr

/-- Does the pattern `\.[^/.]+$` match the whole of `cs`. -/
def matchesExtension : List Char → Bool
  | '.' :: rest => !rest.isEmpty && rest.all fun c => c != '/' && c != '.'
  | _ => false

/-- The replacement `.replace(/\.[^/.]+$/, "")` (line 344) on a list of characters:
the leftmost match, which reaches the end of the input, is deleted. -/
def stripExtensionChars : List Char → List Char
  | [] => []
  | c :: cs => if matchesExtension (c :: cs) then [] else c :: stripExtensionChars cs

/-- The title `file.name.replace(/\.[^/.]+$/, "")` (line 344). -/
def stripExtension (name : String) : String :=
  String.mk (stripExtensionChars name.data)

/-- The size cap `50 * 1024 * 1024` (line 339). -/
def maxFileSize : Nat := 50 * 1024 * 1024

/-- The test of line 339. -/
def accepted (file : File) : Bool :=
  startsWith file.type "audio/" && decide (file.size < maxFileSize)

/-- The track object of lines 342-349. -/
def newTrack (u : Upload) : Track :=
  { id := u.trackId, title := stripExtension u.file.name, artist := "Unknown Artist",
    src := u.url,
    albumArt := "https://via.placeholder.com/200x200/333333/ffffff?text=♪",
    saved := false }

/-- The body of the `forEach` callback of `handleFileUpload` (lines 339-362). -/
def importFile (p : Player) (u : Upload) : Player :=
  if accepted u.file then
    let p := { p with playlist := p.playlist ++ [newTrack u] }
    if p.playlist.length = 1 then loadTrack 0 p else p
  else if u.file.size ≥ maxFileSize then
    { p with trace := p.trace ++
        [Effect.alert ("File " ++ String.mk [Char.ofNat 34] ++ u.file.name ++
          String.mk [Char.ofNat 34] ++ " is too large. Maximum size is 50MB.")] }
  else p

/-- The method `handleFileUpload` (lines 335-370). -/
def handleFileUpload (files : List Upload) (p : Player) : Player :=
  savePlaylist (files.foldl importFile p)

/-! ## Seek / drag controller (lines 244-290) -/

/-- The part of `getBoundingClientRect()` the code reads. -/
structure Rect where
  left : ℚ
  width : ℚ

/-- A mouse event carries `clientX`; a touch event carries it in `touches[0]`. -/
inductive PointerEvent where
  | mouse (clientX : ℚ)
  | touch (clientX : ℚ)

/-- The media element as the seek controller sees it: `duration` is `none` while it
is `NaN`. -/
structure Audio where
  duration : Option ℚ
  currentTime : ℚ

/-- The constant `percent` of `seekTo` (line 248). -/
def seekPercent (clientX : ℚ) (rect : Rect) : ℚ :=
  (clientX - rect.left) / rect.width

/-- The constant `percent` of `dragProgress` (line 276). -/
def dragPercent (clientX : ℚ) (rect : Rect) : ℚ :=
  max 0 (min 1 ((clientX - rect.left) / rect.width))

/-- The method `seekTo` (lines 244-253), a `click` handler: it reads `e.clientX`.
The test `!this.audio.duration` holds for `NaN` and for `0`. -/
def seekTo (clientX : ℚ) (rect : Rect) (a : Audio) : Audio :=
  match a.duration with
  | none => a
  | some d =>
    if d = 0 then a
    else { a with currentTime := seekPercent clientX rect * d }

/-- The method `dragProgress` (lines 263-286). -/
def dragProgress (isDragging : Bool) (e : PointerEvent) (rect : Rect) (a : Audio) : Audio :=
  match a.duration with
  | none => a
  | some d =>
    if !isDragging || decide (d = 0) then a
    else
      let clientX := match e with
        | PointerEvent.touch x => x
        | PointerEvent.mouse x => x
      { a with currentTime := dragPercent clientX rect * d }

/-! ## Time format (lines 327-333) -/

/-- A JavaScript number: `NaN`, one of the infinities, or a finite value.  The finite
values that occur at run time are the doubles (`IsDouble`). -/
inductive JsNumber where
  | nan
  | posInf
  | negInf
  | fin (q : ℚ)
  deriving DecidableEq, Repr

/-- The finite doubles: `m * 2 ^ e` with a 53-bit `m` and `e` from -1074 to 971. -/
def IsDouble (q : ℚ) : Prop :=
  ∃ m e : Int, |m| < 2 ^ 53 ∧ -1074 ≤ e ∧ e ≤ 971 ∧ q = (m : ℚ) * (2 : ℚ) ^ e

/-- The binary exponent of the doubles next to `q`: `⌊log₂ |q|⌋`, and -1022 in the
subnormal range. -/
def doubleExponent (q : ℚ) : Int :=
  max (Int.log 2 |q|) (-1022)

/-- The distance between neighbouring doubles at `q`. -/
def ulp (q : ℚ) : ℚ :=
  (2 : ℚ) ^ (doubleExponent q - 52)

/-- Rounding to the nearest integer, a tie going to the even one. -/
def roundHalfEven (q : ℚ) : Int :=
  if q - ⌊q⌋ < 1 / 2 then ⌊q⌋
  else if 1 / 2 < q - ⌊q⌋ then ⌊q⌋ + 1
  else if ⌊q⌋ % 2 = 0 then ⌊q⌋
  else ⌊q⌋ + 1

/-- The double that an arithmetic result `q` is rounded to (round to nearest, ties to
even), an infinity when it overflows. -/
def roundDouble (q : ℚ) : JsNumber :=
  let y : ℚ := (roundHalfEven (q / ulp q) : ℚ) * ulp q
  if (2 : ℚ) ^ (1024 : ℕ) ≤ y then JsNumber.posInf
  else if y ≤ -(2 : ℚ) ^ (1024 : ℕ) then JsNumber.negInf
  else JsNumber.fin y

/-- The test `isNaN(x)` on a number. -/
def isNaN : JsNumber → Bool
  | JsNumber.nan => true
  | _ => false

/-- The quotient `x / d` for a finite positive constant `d`. -/
def numDiv (x : JsNumber) (d : ℚ) : JsNumber :=
  match x with
  | JsNumber.nan => JsNumber.nan
  | JsNumber.posInf => JsNumber.posInf
  | JsNumber.negInf => JsNumber.negInf
  | JsNumber.fin q => roundDouble (q / d)

/-- The remainder `a % b` of JavaScript on finite values: the sign follows the
dividend, and the result is exact. -/
def jsRem (a b : ℚ) : ℚ :=
  a - b * (if 0 ≤ a / b then (⌊a / b⌋ : ℚ) else (⌈a / b⌉ : ℚ))

/-- The remainder `x % d` for a finite positive constant `d`: `NaN` unless `x` is
finite. -/
def numRem (x : JsNumber) (d : ℚ) : JsNumber :=
  match x with
  | JsNumber.fin q => JsNumber.fin (jsRem q d)
  | _ => JsNumber.nan

/-- The call `Math.floor(x)`. -/
def mathFloor : JsNumber → JsNumber
  | JsNumber.fin q => JsNumber.fin (⌊q⌋ : ℚ)
  | x => x

/-- The string of a number, as in a template literal or `toString()`: an integer below
`2 ^ 53` in magnitude prints in decimal; what the platform prints for any other finite
value is the argument `toStringOther`. -/
def numberToString (toStringOther : ℚ → String) : JsNumber → String
  | JsNumber.nan => "NaN"
  | JsNumber.posInf => "Infinity"
  | JsNumber.negInf => "-Infinity"
  | JsNumber.fin q =>
    if q = (⌊q⌋ : ℚ) ∧ |q| < (2 : ℚ) ^ (53 : ℕ) then toString ⌊q⌋ else toStringOther q

/-- The call `s.padStart(n, c)` for a one-character pad. -/
def padStart (s : String) (n : Nat) (c : Char) : String :=
  String.mk (List.replicate (n - s.length) c) ++ s

/-- The method `formatTime` (lines 327-333). -/
def formatTime (toStringOther : ℚ → String) (seconds : JsNumber) : String :=
  if isNaN seconds then "0:00"
  else
    let mins := mathFloor (numDiv seconds 60)
    let secs := mathFloor (numRem seconds 60)
    numberToString toStringOther mins ++ ":" ++
      padStart (numberToString toStringOther secs) 2 '0'

/-! ## Sample states -/

/-- A track with a durable source. -/
def trackA : Track :=
  { id := "track-1", title := "Alpha", artist := "Ann", src := "https://cdn.example/a.mp3",
    albumArt := "a.png", saved := true }

/-- A track with an ephemeral (blob) source. -/
def trackB : Track :=
  { id := "track-2", title := "Beta", artist := "Bob", src := "blob:https://app/1f2e",
    albumArt := "b.png", saved := false }

/-- A second track with a durable source. -/
def trackC : Track :=
  { id := "track-3", title := "Gamma", artist := "Cy", src := "https://cdn.example/c.mp3",
    albumArt := "c.png", saved := false }

/-- A player over an empty store with the given playlist, index and flags. -/
def playerOf (pl : List Track) (index : Int) (playing repeatAll : Bool) : Player :=
  { initial { musicPlayerPlaylist := none, musicPlayerCurrentIndex := none } with
    playlist := pl, currentTrackIndex := index, isPlaying := playing,
    isRepeatAll := repeatAll }

/-- An audio file under the size cap, with two dots in its name. -/
def songFile : File := { name := "My Song.live.mp3", type := "audio/mpeg", size := 4000000 }

/-- An audio file of exactly 50 MiB. -/
def bigFile : File := { name := "huge.wav", type := "audio/wav", size := 52428800 }

/-- A small file that is not audio. -/
def textFile : File := { name := "notes.txt", type := "text/plain", size := 120 }

/-- The upload of `songFile`. -/
def songUpload : Upload :=
  { file := songFile, trackId := "track-12", url := "blob:https://app/12" }

/-- A batch with an oversized file, a non-audio file and an accepted file, in this order. -/
def sampleBatch : List Upload :=
  [ { file := bigFile, trackId := "track-10", url := "blob:https://app/10" },
    { file := textFile, trackId := "track-11", url := "blob:https://app/11" },
    songUpload ]

/-- A store holding the records of `trackA`, `trackB` and `trackC` and the given index
string, as `savePlaylist` writes them. -/
def sampleStore (savedIndex : String) : Storage :=
  { musicPlayerPlaylist := some [toStored trackA, toStored trackB, toStored trackC],
    musicPlayerCurrentIndex := some savedIndex }

/-! ## The index invariant -/

/-- The current index points into the playlist (which is then non-empty). -/
def IndexValid (p : Player) : Prop :=
  0 ≤ p.currentTrackIndex ∧ p.currentTrackIndex < (p.playlist.length : Int)

instance (p : Player) : Decidable (IndexValid p) := by
  unfold IndexValid; infer_instance

/-! ## Lemmas on the playback controller -/

theorem getTrack_eq_none_iff (pl : List Track) (i : Int) :
    getTrack pl i = none ↔ i < 0 ∨ (pl.length : Int) ≤ i := by
  unfold getTrack
  split
  · simp [*]
  · simp only [List.getElem?_eq_none_iff]
    omega

theorem getTrack_of_some {pl : List Track} {i : Int} {t : Track}
    (h : getTrack pl i = some t) : 0 ≤ i ∧ i < (pl.length : Int) := by
  by_contra hc
  have : getTrack pl i = none := (getTrack_eq_none_iff pl i).2 (by omega)
  simp [this] at h

theorem getTrack_of_inRange (pl : List Track) (i : Int)
    (h0 : 0 ≤ i) (h1 : i < (pl.length : Int)) : ∃ t, getTrack pl i = some t := by
  cases h : getTrack pl i with
  | none => rw [getTrack_eq_none_iff] at h; omega
  | some t => exact ⟨t, rfl⟩

theorem loadTrack_playlist (i : Int) (p : Player) :
    (loadTrack i p).playlist = p.playlist := by
  unfold loadTrack
  split <;> rfl

theorem loadTrack_of_some {p : Player} {i : Int} {t : Track}
    (h : getTrack p.playlist i = some t) :
    loadTrack i p =
      { p with
        currentTrackIndex := i, isPlaying := false,
        storage :=
          { musicPlayerPlaylist := some (p.playlist.map toStored),
            musicPlayerCurrentIndex := some (toString i) },
        trace := p.trace ++ [Effect.pause, Effect.load t.src, Effect.persist] } := by
  unfold loadTrack
  rw [h]
  simp [pause, savePlaylist]

theorem loadTrack_indexValid (i : Int) (p : Player) (h : IndexValid p) :
    IndexValid (loadTrack i p) := by
  cases ht : getTrack p.playlist i with
  | none =>
    unfold loadTrack
    rw [ht]
    exact h
  | some t =>
    rw [loadTrack_of_some ht]
    exact getTrack_of_some ht

theorem savePlaylist_indexValid (p : Player) (h : IndexValid p) :
    IndexValid (savePlaylist p) := h

theorem previousTrack_index (ok : Bool) (p : Player)
    (h0 : 0 ≤ p.currentTrackIndex) (h1 : p.currentTrackIndex < (p.playlist.length : Int)) :
    (previousTrack ok p).currentTrackIndex =
        (p.currentTrackIndex - 1 + (p.playlist.length : Int)) % (p.playlist.length : Int)
      ∧ (previousTrack ok p).playlist = p.playlist
      ∧ (previousTrack ok p).isPlaying = false
      ∧ Effect.play ∉ (previousTrack ok p).trace.drop p.trace.length := by
  have hlen : p.playlist.length ≠ 0 := by
    intro h; rw [h] at h1; simp at h1; omega
  obtain ⟨n, hn⟩ : ∃ n : Int, n = (p.playlist.length : Int) := ⟨_, rfl⟩
  obtain ⟨c', hc'⟩ : ∃ c' : Int,
      c' = if p.currentTrackIndex = 0 then n - 1 else p.currentTrackIndex - 1 := ⟨_, rfl⟩
  have hnpos : 0 < n := by omega
  have hc0 : 0 ≤ c' := by rw [hc']; split <;> omega
  have hc1 : c' < (p.playlist.length : Int) := by rw [hc']; split <;> omega
  have hmod : (p.currentTrackIndex - 1 + n) % n = c' := by
    by_cases h : p.currentTrackIndex = 0
    · have e1 : p.currentTrackIndex - 1 + n = n - 1 := by omega
      have e2 : c' = n - 1 := by rw [hc', if_pos h]
      rw [e1, e2]
      exact Int.emod_eq_of_lt (by omega) (by omega)
    · have e2 : c' = p.currentTrackIndex - 1 := by rw [hc', if_neg h]
      rw [Int.add_emod_self, e2]
      exact Int.emod_eq_of_lt (by omega) (by omega)
  obtain ⟨t, ht⟩ := getTrack_of_inRange p.playlist _ hc0 hc1
  have hprev : previousTrack ok p =
      { p with
        currentTrackIndex := c', isPlaying := false,
        storage :=
          { musicPlayerPlaylist := some (p.playlist.map toStored),
            musicPlayerCurrentIndex := some (toString c') },
        trace := p.trace ++ [Effect.pause, Effect.load t.src, Effect.persist] } := by
    have hl := loadTrack_of_some (p := { p with currentTrackIndex := c' }) (i := c') ht
    unfold previousTrack
    simp only [hlen, if_false]
    rw [← hn, ← hc', hl]
    simp
  rw [hprev, ← hn, hmod]
  simp

theorem nextTrack_indexValid (p : Player) (h : IndexValid p) : IndexValid (nextTrack p) := by
  obtain ⟨h0, h1⟩ := h
  have hlen : p.playlist.length ≠ 0 := by
    intro h; rw [h] at h1; simp at h1; omega
  unfold nextTrack
  simp only [hlen, if_false]
  have key : ∀ (q : Player), q.playlist = p.playlist → 0 ≤ q.currentTrackIndex →
      q.currentTrackIndex < (p.playlist.length : Int) →
      IndexValid (if p.isPlaying = true then
        { loadTrack q.currentTrackIndex q with
          trace := (loadTrack q.currentTrackIndex q).trace ++ [Effect.deferPlay 100] }
        else loadTrack q.currentTrackIndex q) := by
    intro q hq hq0 hq1
    have hv : IndexValid (loadTrack q.currentTrackIndex q) :=
      loadTrack_indexValid _ _ ⟨hq0, by rw [hq]; exact hq1⟩
    split
    · exact hv
    · exact hv
  split
  · exact key _ rfl (Int.tmod_nonneg _ (by omega)) (Int.tmod_lt_of_pos _ (by omega))
  · split
    · exact key _ rfl (by simp; omega) (by simp; omega)
    · exact ⟨h0, h1⟩

theorem loadTrack_index_of_inRange (j : Int) (q : Player)
    (h0 : 0 ≤ j) (h1 : j < (q.playlist.length : Int)) :
    (loadTrack j q).currentTrackIndex = j := by
  obtain ⟨t, ht⟩ := getTrack_of_inRange q.playlist _ h0 h1
  rw [loadTrack_of_some ht]

theorem removeTrack_confirmed (p : Player) (i : Int) (t : Track)
    (hlen : 2 ≤ p.playlist.length) (ht : getTrack p.playlist i = some t) :
    (removeTrack true i p).playlist = p.playlist.eraseIdx i.toNat ∧
    (removeTrack true i p).currentTrackIndex =
      (if i = p.currentTrackIndex then
        (if i ≥ (p.playlist.length : Int) - 1 then (p.playlist.length : Int) - 2
         else p.currentTrackIndex)
       else if i < p.currentTrackIndex then p.currentTrackIndex - 1
       else p.currentTrackIndex) := by
  obtain ⟨hi0, hi1⟩ := getTrack_of_some ht
  have hlen' : ¬ p.playlist.length ≤ 1 := by omega
  have hel : ((p.playlist.eraseIdx i.toNat).length : Int) = (p.playlist.length : Int) - 1 := by
    rw [List.length_eraseIdx_of_lt (by omega)]
    omega
  unfold removeTrack
  simp only [hlen', if_false, if_true, ht]
  constructor
  · simp only [savePlaylist]
    split_ifs <;> simp [loadTrack_playlist]
  · simp only [savePlaylist]
    split_ifs <;> (try dsimp only at *) <;> first
      | rfl
      | omega
      | (rw [loadTrack_index_of_inRange] <;> (try dsimp only) <;> omega)

theorem removeTrack_of_short (confirmed : Bool) (i : Int) (p : Player)
    (h : p.playlist.length ≤ 1) :
    removeTrack confirmed i p =
      { p with
        trace := p.trace ++ [Effect.alert "Cannot remove the last track in the playlist"] } := by
  unfold removeTrack
  rw [if_pos h]

theorem removeTrack_playlist_ne_nil (confirmed : Bool) (i : Int) (p : Player)
    (h : p.playlist ≠ []) : (removeTrack confirmed i p).playlist ≠ [] := by
  by_cases hs : p.playlist.length ≤ 1
  · rw [removeTrack_of_short confirmed i p hs]
    exact h
  · cases confirmed with
    | false =>
      unfold removeTrack
      simp only [hs, if_false]
      exact h
    | true =>
      cases ht : getTrack p.playlist i with
      | none =>
        unfold removeTrack
        simp only [hs, if_false, if_true, ht]
        exact h
      | some t =>
        obtain ⟨hi0, hi1⟩ := getTrack_of_some ht
        rw [(removeTrack_confirmed p i t (by omega) ht).1]
        intro hnil
        have := congrArg List.length hnil
        rw [List.length_eraseIdx_of_lt (by omega)] at this
        simp at this
        omega

theorem removeTrack_indexValid (confirmed : Bool) (i : Int) (p : Player)
    (hi0 : 0 ≤ i) (hi1 : i < (p.playlist.length : Int)) (h : IndexValid p) :
    IndexValid (removeTrack confirmed i p) := by
  obtain ⟨h0, h1⟩ := h
  by_cases hs : p.playlist.length ≤ 1
  · rw [removeTrack_of_short confirmed i p hs]
    exact ⟨h0, h1⟩
  · cases confirmed with
    | false =>
      unfold removeTrack
      simp only [hs, if_false]
      exact ⟨h0, h1⟩
    | true =>
      obtain ⟨t, ht⟩ := getTrack_of_inRange p.playlist _ hi0 hi1
      obtain ⟨hpl, hidx⟩ := removeTrack_confirmed p i t (by omega) ht
      have hel : ((p.playlist.eraseIdx i.toNat).length : Int) = (p.playlist.length : Int) - 1 := by
        rw [List.length_eraseIdx_of_lt (by omega)]
        omega
      unfold IndexValid
      rw [hpl, hidx, hel]
      split_ifs <;> constructor <;> omega

theorem importFile_playlist (p : Player) (u : Upload) :
    (importFile p u).playlist =
      p.playlist ++ (if accepted u.file = true then [newTrack u] else []) := by
  unfold importFile
  by_cases ha : accepted u.file = true
  · rw [if_pos ha, if_pos ha]
    dsimp only
    split_ifs <;> simp [loadTrack_playlist]
  · rw [if_neg ha, if_neg ha]
    split_ifs <;> simp

theorem importFile_indexValid (p : Player) (u : Upload) (h : IndexValid p) :
    IndexValid (importFile p u) := by
  obtain ⟨h0, h1⟩ := h
  have hgrow : IndexValid { p with playlist := p.playlist ++ [newTrack u] } := by
    refine ⟨h0, ?_⟩
    simp only [List.length_append, List.length_singleton]
    push_cast
    omega
  unfold importFile
  by_cases ha : accepted u.file = true
  · rw [if_pos ha]
    dsimp only
    split_ifs
    · exact loadTrack_indexValid 0 _ hgrow
    · exact hgrow
  · rw [if_neg ha]
    split_ifs
    · exact ⟨h0, h1⟩
    · exact ⟨h0, h1⟩

theorem importFile_first (p : Player) (u : Upload)
    (hp : p.playlist = []) (ha : accepted u.file = true) :
    IndexValid (importFile p u) := by
  unfold importFile
  simp only [ha, if_true, hp, List.nil_append, List.length_singleton]
  have ht : getTrack [newTrack u] 0 = some (newTrack u) := rfl
  rw [loadTrack_of_some (p := { p with playlist := [newTrack u] }) ht]
  exact ⟨le_refl _, by simp⟩

theorem foldl_importFile_playlist (files : List Upload) (p : Player) :
    (files.foldl importFile p).playlist =
      p.playlist ++ (files.filter fun u => accepted u.file).map newTrack := by
  induction files generalizing p with
  | nil => simp
  | cons u us ih =>
    rw [List.foldl_cons, ih, importFile_playlist]
    by_cases ha : accepted u.file = true <;> simp [ha]

theorem foldl_importFile_indexValid (files : List Upload) (p : Player) (h : IndexValid p) :
    IndexValid (files.foldl importFile p) := by
  induction files generalizing p with
  | nil => exact h
  | cons u us ih => exact ih _ (importFile_indexValid p u h)

/-! ## Claims on the playlist / playback state machine -/

/-- C1: index validity is an invariant. From every state whose current index points
into the playlist, an upload of any batch (in particular of one accepted file), a
`removeTrack` at an index of the playlist (confirmed or not), `nextTrack`,
`previousTrack` and `loadTrack` at any index lead to a state whose current index points
into the playlist; and uploading one accepted file into a player with an empty playlist
gives a one-track playlist with a valid current index. -/
theorem index_validity_invariant :
    (∀ p : Player, IndexValid p →
      (∀ files : List Upload, IndexValid (handleFileUpload files p)) ∧
      (∀ u : Upload, accepted u.file = true → IndexValid (importFile p u)) ∧
      (∀ (confirmed : Bool) (i : Int), 0 ≤ i → i < (p.playlist.length : Int) →
        IndexValid (removeTrack confirmed i p)) ∧
      IndexValid (nextTrack p) ∧
      (∀ playOk : Bool, IndexValid (previousTrack playOk p)) ∧
      (∀ i : Int, IndexValid (loadTrack i p))) ∧
    (∀ (p : Player) (u : Upload), p.playlist = [] → accepted u.file = true →
      IndexValid (handleFileUpload [u] p) ∧
      (handleFileUpload [u] p).playlist = [newTrack u]) := by
  refine ⟨fun p h => ⟨?_, ?_, ?_, ?_, ?_, ?_⟩, ?_⟩
  · intro files
    exact savePlaylist_indexValid _ (foldl_importFile_indexValid files p h)
  · intro u _
    exact importFile_indexValid p u h
  · intro confirmed i hi0 hi1
    exact removeTrack_indexValid confirmed i p hi0 hi1 h
  · exact nextTrack_indexValid p h
  · intro playOk
    obtain ⟨hidx, hpl, _, _⟩ := previousTrack_index playOk p h.1 h.2
    have hpos : (0 : Int) < (p.playlist.length : Int) := lt_of_le_of_lt h.1 h.2
    unfold IndexValid
    rw [hidx, hpl]
    exact ⟨Int.emod_nonneg _ (by omega), Int.emod_lt_of_pos _ hpos⟩
  · intro i
    exact loadTrack_indexValid i p h
  · intro p u hp ha
    constructor
    · exact savePlaylist_indexValid _ (importFile_first p u hp ha)
    · show ([u].foldl importFile p).playlist = [newTrack u]
      rw [foldl_importFile_playlist, hp]
      simp [ha]

/-- Witness of C1: the invariant applied to three tracks at index 1, for `nextTrack`. -/
theorem index_validity_invariant_witness :
    IndexValid (playerOf [trackA, trackB, trackC] 1 true false) ∧
    IndexValid (nextTrack (playerOf [trackA, trackB, trackC] 1 true false)) :=
  ⟨by decide,
   (index_validity_invariant.1 (playerOf [trackA, trackB, trackC] 1 true false)
      (by decide)).2.2.2.1⟩

/-- C2 (evaluation at the failing input): with two tracks, index 1 and `isPlaying`
true, `previousTrack` pauses, loads track 0 and persists, and issues no play request:
`loadTrack` has already called `pause`, so the test `this.isPlaying` after it is false.
`nextTrack`, which reads `isPlaying` before loading, does schedule the play. -/
theorem previousTrack_does_not_resume :
    (previousTrack true (playerOf [trackA, trackC] 1 true true)).trace =
        [Effect.pause, Effect.load "https://cdn.example/a.mp3", Effect.persist]
      ∧ (previousTrack true (playerOf [trackA, trackC] 1 true true)).isPlaying = false
      ∧ (previousTrack true (playerOf [trackA, trackC] 1 true true)).currentTrackIndex = 0
      ∧ Effect.play ∉ (previousTrack true (playerOf [trackA, trackC] 1 true true)).trace
      ∧ (nextTrack (playerOf [trackA, trackC] 0 true true)).trace =
        [Effect.pause, Effect.load "https://cdn.example/c.mp3", Effect.persist,
         Effect.deferPlay 100] := by
  decide

/-- C3: on a non-empty playlist of length `n` with a valid current index `c`,
`previousTrack` moves the index to `(c - 1 + n) mod n`, in either repeat mode. -/
theorem previousTrack_wraps (p : Player) (repeatAll playOk : Bool)
    (_hne : p.playlist ≠ [])
    (h0 : 0 ≤ p.currentTrackIndex) (h1 : p.currentTrackIndex < (p.playlist.length : Int)) :
    (previousTrack playOk { p with isRepeatAll := repeatAll }).currentTrackIndex =
      (p.currentTrackIndex - 1 + (p.playlist.length : Int)) % (p.playlist.length : Int) :=
  (previousTrack_index playOk { p with isRepeatAll := repeatAll } h0 h1).1

/-- Witness of C3: three tracks at index 0 move to index 2, with repeat on and off. -/
theorem previousTrack_wraps_witness :
    (previousTrack true (playerOf [trackA, trackB, trackC] 0 false true)).currentTrackIndex = 2
    ∧ (previousTrack true (playerOf [trackA, trackB, trackC] 0 false false)).currentTrackIndex
        = 2 :=
  ⟨previousTrack_wraps (playerOf [trackA, trackB, trackC] 0 false true) true true
      (by decide) (by decide) (by decide),
   previousTrack_wraps (playerOf [trackA, trackB, trackC] 0 false true) false true
      (by decide) (by decide) (by decide)⟩

/-- C4: on a non-empty playlist of length `n` with a valid current index `c`,
`nextTrack` moves the index to `(c + 1) mod n` when repeat-all is on; when it is off
the index becomes `c + 1` below the last track, and at the last track the state only
changes by the call of `pause`: `isPlaying` is false, the index stays and no track is
loaded. -/
theorem nextTrack_repeat_policy (p : Player)
    (h0 : 0 ≤ p.currentTrackIndex) (h1 : p.currentTrackIndex < (p.playlist.length : Int)) :
    (p.isRepeatAll = true →
      (nextTrack p).currentTrackIndex =
        (p.currentTrackIndex + 1) % (p.playlist.length : Int)) ∧
    (p.isRepeatAll = false → p.currentTrackIndex < (p.playlist.length : Int) - 1 →
      (nextTrack p).currentTrackIndex = p.currentTrackIndex + 1) ∧
    (p.isRepeatAll = false → p.currentTrackIndex = (p.playlist.length : Int) - 1 →
      nextTrack p = { p with isPlaying := false, trace := p.trace ++ [Effect.pause] }) := by
  have hlen : p.playlist.length ≠ 0 := by
    intro h; rw [h] at h1; simp at h1; omega
  have key : ∀ (q : Player), q.playlist = p.playlist → 0 ≤ q.currentTrackIndex →
      q.currentTrackIndex < (p.playlist.length : Int) →
      (if p.isPlaying = true then
        { loadTrack q.currentTrackIndex q with
          trace := (loadTrack q.currentTrackIndex q).trace ++ [Effect.deferPlay 100] }
        else loadTrack q.currentTrackIndex q).currentTrackIndex = q.currentTrackIndex := by
    intro q hq hq0 hq1
    have hv := loadTrack_index_of_inRange q.currentTrackIndex q hq0 (by rw [hq]; exact hq1)
    split
    · exact hv
    · exact hv
  refine ⟨?_, ?_, ?_⟩
  · intro hr
    unfold nextTrack
    simp only [hlen, if_false, hr, if_true]
    rw [← Int.tmod_eq_emod (by omega) (by omega)]
    exact key _ rfl (Int.tmod_nonneg _ (by omega)) (Int.tmod_lt_of_pos _ (by omega))
  · intro hr hlt
    unfold nextTrack
    simp only [hlen, if_false, hr, Bool.false_eq_true, hlt, if_true]
    exact key _ rfl (by simp; omega) (by simp; omega)
  · intro hr heq
    have hnlt : ¬ p.currentTrackIndex < (p.playlist.length : Int) - 1 := by omega
    unfold nextTrack
    simp only [hlen, if_false, hr, Bool.false_eq_true, hnlt]
    simp [pause, hr]

/-- Witness of C4: three tracks at index 2. -/
theorem nextTrack_repeat_policy_witness :
    (nextTrack (playerOf [trackA, trackB, trackC] 2 true true)).currentTrackIndex = 0 ∧
    nextTrack (playerOf [trackA, trackB, trackC] 2 true false) =
      { playerOf [trackA, trackB, trackC] 2 true false with
        isPlaying := false, trace := [Effect.pause] } :=
  ⟨(nextTrack_repeat_policy (playerOf [trackA, trackB, trackC] 2 true true)
      (by decide) (by decide)).1 rfl,
   (nextTrack_repeat_policy (playerOf [trackA, trackB, trackC] 2 true false)
      (by decide) (by decide)).2.2 rfl rfl⟩

/-- C5: on a playlist of at least two tracks, a confirmed `removeTrack i` at a valid
index `i`, from a valid current index `c`, leaves the old playlist without its element
`i` (the others in their order); the current index becomes `min i (newLength - 1)` when
`i = c`, `c - 1` when `i < c`, and stays `c` when `i > c`; and when `i ≠ c` the track at
the current index is the one that was current before. -/
theorem removeTrack_confirmed_spec (p : Player) (i : Int)
    (hlen : 2 ≤ p.playlist.length)
    (hi0 : 0 ≤ i) (hi1 : i < (p.playlist.length : Int))
    (hc0 : 0 ≤ p.currentTrackIndex) (hc1 : p.currentTrackIndex < (p.playlist.length : Int)) :
    (removeTrack true i p).playlist =
        p.playlist.take i.toNat ++ p.playlist.drop (i.toNat + 1)
      ∧ ((removeTrack true i p).playlist.length : Int) = (p.playlist.length : Int) - 1
      ∧ (i = p.currentTrackIndex →
          (removeTrack true i p).currentTrackIndex =
            min i (((removeTrack true i p).playlist.length : Int) - 1))
      ∧ (i < p.currentTrackIndex →
          (removeTrack true i p).currentTrackIndex = p.currentTrackIndex - 1)
      ∧ (p.currentTrackIndex < i →
          (removeTrack true i p).currentTrackIndex = p.currentTrackIndex)
      ∧ (i ≠ p.currentTrackIndex →
          getTrack (removeTrack true i p).playlist (removeTrack true i p).currentTrackIndex =
            getTrack p.playlist p.currentTrackIndex) := by
  obtain ⟨t, ht⟩ := getTrack_of_inRange p.playlist _ hi0 hi1
  obtain ⟨hpl, hidx⟩ := removeTrack_confirmed p i t hlen ht
  have hel : ((p.playlist.eraseIdx i.toNat).length : Int) = (p.playlist.length : Int) - 1 := by
    rw [List.length_eraseIdx_of_lt (by omega)]
    omega
  rw [hpl, hidx, hel]
  refine ⟨List.eraseIdx_eq_take_drop_succ _ _, rfl, ?_, ?_, ?_, ?_⟩
  · intro h
    rw [if_pos h]
    split_ifs
    · rw [min_eq_right (by omega)]; omega
    · rw [min_eq_left (by omega)]; omega
  · intro h
    rw [if_neg (by omega), if_pos h]
  · intro h
    rw [if_neg (by omega), if_neg (by omega)]
  · intro h
    rw [if_neg h]
    unfold getTrack
    split_ifs <;> first
      | omega
      | (rw [List.getElem?_eraseIdx_of_ge _ _ _ (by omega)]
         congr 1
         omega)
      | (rw [List.getElem?_eraseIdx_of_lt _ _ _ (by omega)])

/-- Witness of C5: removing the middle one of three tracks while the last is current. -/
theorem removeTrack_confirmed_spec_witness :
    (removeTrack true 1 (playerOf [trackA, trackB, trackC] 2 false true)).playlist =
        [trackA, trackC]
      ∧ (removeTrack true 1 (playerOf [trackA, trackB, trackC] 2 false true)).currentTrackIndex
        = 1 :=
  ⟨(removeTrack_confirmed_spec (playerOf [trackA, trackB, trackC] 2 false true) 1
      (by decide) (by decide) (by decide) (by decide) (by decide)).1,
   (removeTrack_confirmed_spec (playerOf [trackA, trackB, trackC] 2 false true) 1
      (by decide) (by decide) (by decide) (by decide) (by decide)).2.2.2.1 (by decide)⟩

/-- C6: on a playlist of at most one track `removeTrack`, at any index and whatever
the dialog would answer, only raises the alert: playlist, current index, `isPlaying`
and the store are unchanged and the trace gains the alert alone (no persistence write,
no load); and `removeTrack` never empties a non-empty playlist. -/
theorem removeTrack_last_track_rejected :
    (∀ (p : Player) (confirmed : Bool) (i : Int), p.playlist.length ≤ 1 →
      removeTrack confirmed i p =
        { p with
          trace := p.trace ++
            [Effect.alert "Cannot remove the last track in the playlist"] }) ∧
    (∀ (p : Player) (confirmed : Bool) (i : Int), p.playlist ≠ [] →
      (removeTrack confirmed i p).playlist ≠ []) :=
  ⟨fun p confirmed i h => removeTrack_of_short confirmed i p h,
   fun p confirmed i h => removeTrack_playlist_ne_nil confirmed i p h⟩

/-- Witness of C6: the only track of a one-track playlist stays. -/
theorem removeTrack_last_track_rejected_witness :
    removeTrack true 0 (playerOf [trackA] 0 true true) =
        { playerOf [trackA] 0 true true with
          trace := [Effect.alert "Cannot remove the last track in the playlist"] }
      ∧ (removeTrack true 0 (playerOf [trackA, trackB] 0 true true)).playlist ≠ [] :=
  ⟨removeTrack_last_track_rejected.1 (playerOf [trackA] 0 true true) true 0 (by decide),
   removeTrack_last_track_rejected.2 (playerOf [trackA, trackB] 0 true true) true 0
     (by decide)⟩

theorem filterMap_fromStored_toStored (pl : List Track) :
    (pl.map toStored).filterMap fromStored = pl.filter fun t => !startsWith t.src "blob:" := by
  induction pl with
  | nil => rfl
  | cons t ts ih =>
    rw [List.map_cons]
    cases hb : startsWith t.src "blob:" with
    | true =>
      have h1 : fromStored (toStored t) = none := by simp [fromStored, toStored, hb]
      rw [List.filterMap_cons_none h1, ih, List.filter_cons_of_neg (by simp [hb])]
    | false =>
      have h1 : fromStored (toStored t) = some t := by simp [fromStored, toStored, hb]
      rw [List.filterMap_cons_some h1, ih, List.filter_cons_of_pos (by simp [hb])]

theorem loadSavedPlaylist_playlist (p : Player) (l : List StoredTrack)
    (h : p.storage.musicPlayerPlaylist = some l) :
    (loadSavedPlaylist p).playlist = l.filterMap fromStored := by
  unfold loadSavedPlaylist
  rw [h]
  dsimp only
  split
  · rfl
  · split_ifs
    · split
      · rfl
      · split_ifs <;> rfl
    · rfl

/-- C7: persistence round trip. Whatever player reads the store back, `loadSavedPlaylist`
applied to what `savePlaylist` wrote yields exactly the tracks of the saved playlist
whose `src` does not start with "blob:", in their order and as the same records (id,
title, artist, albumArt, saved and src); so every blob track is dropped, and a durable
track followed by a blob track reloads to the durable track alone. -/
theorem persistence_round_trip :
    (∀ p q : Player,
      (loadSavedPlaylist { q with storage := (savePlaylist p).storage }).playlist =
        p.playlist.filter fun t => !startsWith t.src "blob:") ∧
    (loadSavedPlaylist
        (initial (savePlaylist (playerOf [trackA, trackB] 0 false true)).storage)).playlist =
      [trackA] := by
  constructor
  · intro p q
    rw [loadSavedPlaylist_playlist _ (p.playlist.map toStored) rfl]
    exact filterMap_fromStored_toStored p.playlist
  · decide

theorem padStart_two_digits (r : Nat) (h : r < 60) :
    padStart (toString (r : Int)) 2 '0' =
      String.mk [Nat.digitChar (r / 10), Nat.digitChar (r % 10)] := by
  interval_cases r <;> rfl

theorem jsRem_of_nonneg (s : ℚ) (hs : 0 ≤ s) : jsRem s 60 = s - 60 * (⌊s / 60⌋ : ℚ) := by
  unfold jsRem
  rw [if_pos (by positivity)]

theorem floor_div_sixty_nonneg (s : ℚ) (hs : 0 ≤ s) : 0 ≤ ⌊s / 60⌋ :=
  Int.floor_nonneg.2 (by positivity)

theorem floor_jsRem_of_nonneg (s : ℚ) (hs : 0 ≤ s) :
    ⌊jsRem s 60⌋ = ⌊s⌋ - 60 * ⌊s / 60⌋ ∧ 0 ≤ ⌊jsRem s 60⌋ ∧ ⌊jsRem s 60⌋ < 60 := by
  rw [jsRem_of_nonneg s hs]
  have hcast : s - 60 * (⌊s / 60⌋ : ℚ) = s - ((60 * ⌊s / 60⌋ : Int) : ℚ) := by push_cast; ring
  have h1 : (⌊s / 60⌋ : ℚ) ≤ s / 60 := Int.floor_le _
  have h2 : s / 60 < (⌊s / 60⌋ : ℚ) + 1 := Int.lt_floor_add_one _
  have h3 : 0 ≤ s - 60 * (⌊s / 60⌋ : ℚ) := by linarith
  have h4 : s - 60 * (⌊s / 60⌋ : ℚ) < 60 := by linarith
  refine ⟨?_, Int.floor_nonneg.2 h3, ?_⟩
  · rw [hcast, Int.floor_sub_int]
  · exact Int.floor_lt.2 (by exact_mod_cast h4)

theorem roundHalfEven_ge (z : Int) (q : ℚ) (h : (z : ℚ) ≤ q) : z ≤ roundHalfEven q := by
  have hz : z ≤ ⌊q⌋ := Int.le_floor.2 h
  unfold roundHalfEven
  split_ifs <;> omega

theorem roundHalfEven_lt (z : Int) (q : ℚ) (h : q < (z : ℚ) - 1 / 2) : roundHalfEven q < z := by
  have h1 : ⌊q⌋ < z := Int.floor_lt.2 (by linarith)
  have hfl : (⌊q⌋ : ℚ) ≤ q := Int.floor_le q
  unfold roundHalfEven
  split_ifs with ha hb hc
  · exact h1
  · have : ((⌊q⌋ + 1 : Int) : ℚ) < z := by push_cast; linarith
    exact_mod_cast this
  · exact h1
  · have hge : (1 : ℚ) / 2 ≤ q - ⌊q⌋ := not_lt.1 ha
    have : ((⌊q⌋ + 1 : Int) : ℚ) < z := by push_cast; linarith
    exact_mod_cast this

theorem round_scaled_bounds (x u : ℚ) (c : ℕ) (k : Int)
    (hu : u * (2 : ℚ) ^ c = 1) (hk : (k : ℚ) ≤ x) (hx : x + u / 2 < (k : ℚ) + 1) :
    (k : ℚ) ≤ (roundHalfEven (x / u) : ℚ) * u ∧ (roundHalfEven (x / u) : ℚ) * u < (k : ℚ) + 1 := by
  have hc : (0 : ℚ) < (2 : ℚ) ^ c := by positivity
  have hupos : 0 < u := by
    by_contra hneg
    have : u * (2 : ℚ) ^ c ≤ 0 := mul_nonpos_of_nonpos_of_nonneg (not_lt.1 hneg) hc.le
    linarith
  have hdiv : x / u = x * (2 : ℚ) ^ c := by
    field_simp
    rw [mul_assoc, mul_comm ((2 : ℚ) ^ c) u, hu, mul_one]
  have hlow : ((k * 2 ^ c : Int) : ℚ) ≤ x / u := by
    rw [hdiv]; push_cast
    exact mul_le_mul_of_nonneg_right hk hc.le
  have hup : x / u < (((k + 1) * 2 ^ c : Int) : ℚ) - 1 / 2 := by
    rw [hdiv]; push_cast
    have h1 : (x + u / 2) * (2 : ℚ) ^ c < ((k : ℚ) + 1) * (2 : ℚ) ^ c :=
      mul_lt_mul_of_pos_right hx hc
    have h2 : (x + u / 2) * (2 : ℚ) ^ c = x * (2 : ℚ) ^ c + 1 / 2 := by
      rw [add_mul, div_mul_eq_mul_div, hu]
    linarith
  have h1 := roundHalfEven_ge _ _ hlow
  have h2 := roundHalfEven_lt _ _ hup
  have h1q : ((k * 2 ^ c : Int) : ℚ) ≤ (roundHalfEven (x / u) : ℚ) := by exact_mod_cast h1
  have h2q : (roundHalfEven (x / u) : ℚ) ≤ (((k + 1) * 2 ^ c : Int) : ℚ) - 1 := by
    have : roundHalfEven (x / u) ≤ (k + 1) * 2 ^ c - 1 := by omega
    exact_mod_cast this
  push_cast at h1q h2q
  constructor
  · calc (k : ℚ) = (k : ℚ) * (2 : ℚ) ^ c * u := by rw [mul_assoc, mul_comm _ u, hu, mul_one]
      _ ≤ (roundHalfEven (x / u) : ℚ) * u := mul_le_mul_of_nonneg_right h1q hupos.le
  · calc (roundHalfEven (x / u) : ℚ) * u ≤ (((k : ℚ) + 1) * (2 : ℚ) ^ c - 1) * u :=
          mul_le_mul_of_nonneg_right h2q hupos.le
      _ = (k : ℚ) + 1 - u := by
          rw [sub_mul, mul_assoc, mul_comm _ u, hu, mul_one, one_mul]
      _ < (k : ℚ) + 1 := by linarith


theorem doubleExponent_le (x : ℚ) (h0 : 0 ≤ x) (hx : x < (2 : ℚ) ^ (48 : ℤ)) :
    doubleExponent x ≤ 47 := by
  unfold doubleExponent
  rw [abs_of_nonneg h0]
  refine max_le ?_ (by norm_num)
  rcases h0.eq_or_lt with h | h
  · rw [← h, Int.log_zero_right]; norm_num
  · have hx' : x < ((2 : ℕ) : ℚ) ^ (48 : ℤ) := by rw [Nat.cast_ofNat]; exact hx
    have := (Int.lt_zpow_iff_log_lt (by norm_num) h).1 hx'
    omega

theorem ulp_mul_pow (x : ℚ) (hE : doubleExponent x ≤ 52) :
    ulp x * (2 : ℚ) ^ (52 - doubleExponent x).toNat = 1 := by
  unfold ulp
  rw [← zpow_natCast, Int.toNat_of_nonneg (by omega), ← zpow_add₀ (by norm_num)]
  have : doubleExponent x - 52 + (52 - doubleExponent x) = 0 := by ring
  rw [this, zpow_zero]

theorem ulp_le (x : ℚ) (hE : doubleExponent x ≤ 47) : ulp x ≤ 1 / 32 := by
  unfold ulp
  have h : (2 : ℚ) ^ (doubleExponent x - 52) ≤ (2 : ℚ) ^ (-5 : ℤ) :=
    zpow_le_zpow_right₀ (by norm_num) (by omega)
  have e : (2 : ℚ) ^ (-5 : ℤ) = 1 / 32 := by norm_num [zpow_neg]
  rw [e] at h
  exact h

theorem ulp_pos (x : ℚ) : 0 < ulp x := by
  unfold ulp
  positivity

theorem div_sixty_gap (s : ℚ) (hd : IsDouble s) (h0 : 0 ≤ s) (hs : s < (2 : ℚ) ^ (53 : ℕ)) :
    s / 60 + ulp (s / 60) / 2 < (⌊s / 60⌋ : ℚ) + 1 := by
  have hx0 : 0 ≤ s / 60 := by positivity
  have hx48 : s / 60 < (2 : ℚ) ^ (48 : ℤ) := by
    have : (2 : ℚ) ^ (48 : ℤ) = 2 ^ (53 : ℕ) / 32 := by norm_num
    rw [this]
    linarith
  have hE := doubleExponent_le (s / 60) hx0 hx48
  have hu := ulp_le (s / 60) hE
  have hupos := ulp_pos (s / 60)
  have hfl : s / 60 < (⌊s / 60⌋ : ℚ) + 1 := Int.lt_floor_add_one _
  have hfl0 : (0 : ℚ) ≤ (⌊s / 60⌋ : ℚ) := by exact_mod_cast Int.floor_nonneg.2 hx0
  by_cases hhalf : s / 60 < 1 / 2
  · linarith
  · have hge : (1 : ℚ) / 2 ≤ s / 60 := not_lt.1 hhalf
    have hxpos : 0 < s / 60 := by linarith
    have hL1 : (-1 : ℤ) ≤ Int.log 2 (s / 60) := by
      apply (Int.zpow_le_iff_le_log (by norm_num) hxpos).1
      have : ((2 : ℕ) : ℚ) ^ (-1 : ℤ) = 1 / 2 := by norm_num
      rw [this]
      exact hge
    have hEeq : doubleExponent (s / 60) = Int.log 2 (s / 60) := by
      unfold doubleExponent
      rw [abs_of_nonneg hx0]
      exact max_eq_left (by omega)
    have hLle : (2 : ℚ) ^ Int.log 2 (s / 60) ≤ s / 60 := by
      have := Int.zpow_log_le_self (b := 2) (r := s / 60) (by norm_num) hxpos
      exact_mod_cast this
    have hueq : ulp (s / 60) = (2 : ℚ) ^ (Int.log 2 (s / 60) - 52) := by
      unfold ulp
      rw [hEeq]
    -- the gap between the next multiple of 60 and `s`
    have hdpos : 0 < 60 * ((⌊s / 60⌋ : ℚ) + 1) - s := by linarith
    have key : 32 * ulp (s / 60) ≤ 60 * ((⌊s / 60⌋ : ℚ) + 1) - s := by
      obtain ⟨m, e, hm, he0, he1, hse⟩ := hd
      by_cases hepos : 0 ≤ e
      · -- `s` is an integer
        have hsint : s = ((m * 2 ^ e.toNat : Int) : ℚ) := by
          rw [hse]; push_cast
          rw [← zpow_natCast, Int.toNat_of_nonneg hepos]
        have hdint : 60 * ((⌊s / 60⌋ : ℚ) + 1) - s =
            ((60 * (⌊s / 60⌋ + 1) - m * 2 ^ e.toNat : Int) : ℚ) := by
          rw [hsint]; push_cast; ring_nf
        rw [hdint] at hdpos ⊢
        have h1 : (0 : Int) < 60 * (⌊s / 60⌋ + 1) - m * 2 ^ e.toNat := by exact_mod_cast hdpos
        have h2 : (1 : ℚ) ≤ ((60 * (⌊s / 60⌋ + 1) - m * 2 ^ e.toNat : Int) : ℚ) := by
          exact_mod_cast h1
        linarith
      · -- `s` is `m / 2 ^ t`
        have hneg : e < 0 := not_le.1 hepos
        have ht : (2 : ℚ) ^ e * (2 : ℚ) ^ (-e).toNat = 1 := by
          rw [← zpow_natCast, Int.toNat_of_nonneg (by omega), ← zpow_add₀ (by norm_num)]
          simp
        have htpos : (0 : ℚ) < (2 : ℚ) ^ (-e).toNat := by positivity
        have hepos' : (0 : ℚ) < (2 : ℚ) ^ e := by positivity
        have hdint : (60 * ((⌊s / 60⌋ : ℚ) + 1) - s) * (2 : ℚ) ^ (-e).toNat =
            ((60 * (⌊s / 60⌋ + 1) * 2 ^ (-e).toNat - m : Int) : ℚ) := by
          push_cast
          rw [sub_mul, hse, mul_assoc (m : ℚ), ht, mul_one]
        have hpos2 : 0 < (60 * ((⌊s / 60⌋ : ℚ) + 1) - s) * (2 : ℚ) ^ (-e).toNat :=
          mul_pos hdpos htpos
        rw [hdint] at hpos2
        have h1 : (0 : Int) < 60 * (⌊s / 60⌋ + 1) * 2 ^ (-e).toNat - m := by
          exact_mod_cast hpos2
        have h2 : (1 : ℚ) ≤ ((60 * (⌊s / 60⌋ + 1) * 2 ^ (-e).toNat - m : Int) : ℚ) := by
          exact_mod_cast h1
        rw [← hdint] at h2
        have hdge : (2 : ℚ) ^ e ≤ 60 * ((⌊s / 60⌋ : ℚ) + 1) - s := by
          have := mul_le_mul_of_nonneg_right h2 hepos'.le
          rw [one_mul, mul_assoc, mul_comm _ ((2 : ℚ) ^ e), ht, mul_one] at this
          exact this
        -- the exponent of `s / 60` is at most `e + 47`
        have hmlt : (m : ℚ) < (2 : ℚ) ^ (53 : ℤ) := by
          have : m < 2 ^ 53 := lt_of_le_of_lt (le_abs_self m) hm
          have h' : (m : ℚ) < ((2 ^ 53 : Int) : ℚ) := by exact_mod_cast this
          have e' : ((2 ^ 53 : Int) : ℚ) = (2 : ℚ) ^ (53 : ℤ) := by norm_num
          rw [e'] at h'
          exact h'
        have hslt : s < (2 : ℚ) ^ (53 + e) := by
          rw [hse, zpow_add₀ (by norm_num)]
          exact mul_lt_mul_of_pos_right hmlt hepos'
        have hLpos : (0 : ℚ) < (2 : ℚ) ^ Int.log 2 (s / 60) := by positivity
        have hpow : (2 : ℚ) ^ (Int.log 2 (s / 60) + 5) < (2 : ℚ) ^ (53 + e) := by
          have e5 : (2 : ℚ) ^ (Int.log 2 (s / 60) + 5) = 32 * (2 : ℚ) ^ Int.log 2 (s / 60) := by
            rw [zpow_add₀ (by norm_num)]
            norm_num
            ring
          rw [e5]
          linarith
        have hexp : Int.log 2 (s / 60) + 5 < 53 + e :=
          (zpow_lt_zpow_iff_right₀ (by norm_num : (1 : ℚ) < 2)).1 hpow
        have hule : 32 * ulp (s / 60) ≤ (2 : ℚ) ^ e := by
          rw [hueq]
          have e32 : 32 * (2 : ℚ) ^ (Int.log 2 (s / 60) - 52) =
              (2 : ℚ) ^ (Int.log 2 (s / 60) - 47) := by
            have : Int.log 2 (s / 60) - 47 = (Int.log 2 (s / 60) - 52) + 5 := by ring
            rw [this, zpow_add₀ (by norm_num)]
            norm_num
            ring
          rw [e32]
          exact zpow_le_zpow_right₀ (by norm_num) (by omega)
        linarith
    linarith


theorem roundDouble_div_sixty (s : ℚ) (hd : IsDouble s) (h0 : 0 ≤ s)
    (hs : s < (2 : ℚ) ^ (53 : ℕ)) :
    ∃ y : ℚ, roundDouble (s / 60) = JsNumber.fin y ∧ ⌊y⌋ = ⌊s / 60⌋ := by
  have hx0 : 0 ≤ s / 60 := by positivity
  have hx48 : s / 60 < (2 : ℚ) ^ (48 : ℤ) := by
    have : (2 : ℚ) ^ (48 : ℤ) = 2 ^ (53 : ℕ) / 32 := by norm_num
    rw [this]
    linarith
  have hE := doubleExponent_le (s / 60) hx0 hx48
  obtain ⟨hlow, hup⟩ := round_scaled_bounds (s / 60) (ulp (s / 60))
    (52 - doubleExponent (s / 60)).toNat ⌊s / 60⌋
    (ulp_mul_pow (s / 60) (by omega)) (Int.floor_le _) (div_sixty_gap s hd h0 hs)
  have hk0 : (0 : ℚ) ≤ (⌊s / 60⌋ : ℚ) := by exact_mod_cast Int.floor_nonneg.2 hx0
  have hk1 : (⌊s / 60⌋ : ℚ) ≤ s / 60 := Int.floor_le _
  have hbig : (2 : ℚ) ^ (53 : ℕ) + 1 < (2 : ℚ) ^ (1024 : ℕ) := by norm_num
  refine ⟨(roundHalfEven (s / 60 / ulp (s / 60)) : ℚ) * ulp (s / 60), ?_, ?_⟩
  · unfold roundDouble
    dsimp only
    rw [if_neg (by linarith), if_neg (by linarith)]
  · rw [Int.floor_eq_iff]
    exact ⟨hlow, hup⟩

theorem numberToString_intCast (f : ℚ → String) (z : Int)
    (h : |(z : ℚ)| < (2 : ℚ) ^ (53 : ℕ)) :
    numberToString f (JsNumber.fin (z : ℚ)) = toString z := by
  show (if (z : ℚ) = (⌊(z : ℚ)⌋ : ℚ) ∧ |(z : ℚ)| < (2 : ℚ) ^ (53 : ℕ) then
      toString ⌊(z : ℚ)⌋ else f (z : ℚ)) = toString z
  rw [if_pos ⟨by rw [Int.floor_intCast], h⟩, Int.floor_intCast]

theorem formatTime_of_double (f : ℚ → String) (s : ℚ) (hd : IsDouble s) (h0 : 0 ≤ s)
    (hs : s < (2 : ℚ) ^ (53 : ℕ)) :
    ∃ m r : Nat,
      ⌊s / 60⌋ = (m : Int) ∧ ⌊s - 60 * (⌊s / 60⌋ : ℚ)⌋ = (r : Int) ∧
      (r : Int) = ⌊s⌋ % 60 ∧ r < 60 ∧
      formatTime f (JsNumber.fin s) =
        toString m ++ ":" ++ String.mk [Nat.digitChar (r / 10), Nat.digitChar (r % 10)] := by
  obtain ⟨hfl, hr0, hr1⟩ := floor_jsRem_of_nonneg s h0
  have hm0 := floor_div_sixty_nonneg s h0
  obtain ⟨m, hm⟩ := Int.eq_ofNat_of_zero_le hm0
  obtain ⟨r, hr⟩ := Int.eq_ofNat_of_zero_le hr0
  have hr60 : r < 60 := by omega
  obtain ⟨y, hy, hyfl⟩ := roundDouble_div_sixty s hd h0 hs
  refine ⟨m, r, hm, ?_, ?_, hr60, ?_⟩
  · rw [← jsRem_of_nonneg s h0]; exact hr
  · omega
  · have hmins : mathFloor (numDiv (JsNumber.fin s) 60) = JsNumber.fin ((m : Int) : ℚ) := by
      show mathFloor (roundDouble (s / 60)) = _
      rw [hy]
      show JsNumber.fin (⌊y⌋ : ℚ) = _
      rw [hyfl, hm]
    have hsecs : mathFloor (numRem (JsNumber.fin s) 60) = JsNumber.fin ((r : Int) : ℚ) := by
      show JsNumber.fin (⌊jsRem s 60⌋ : ℚ) = _
      rw [hr]
    have hmabs : |(((m : Int)) : ℚ)| < (2 : ℚ) ^ (53 : ℕ) := by
      have h1 : (⌊s / 60⌋ : ℚ) ≤ s / 60 := Int.floor_le _
      rw [hm] at h1
      have h2 : (0 : ℚ) ≤ ((m : Int) : ℚ) := by positivity
      rw [abs_of_nonneg h2]
      linarith
    have hrabs : |(((r : Int)) : ℚ)| < (2 : ℚ) ^ (53 : ℕ) := by
      have h2 : (0 : ℚ) ≤ ((r : Int) : ℚ) := by positivity
      have h3 : ((r : Int) : ℚ) < 60 := by exact_mod_cast hr60
      rw [abs_of_nonneg h2]
      exact lt_trans h3 (by norm_num)
    unfold formatTime
    rw [if_neg (by simp [isNaN])]
    dsimp only
    rw [hmins, hsecs, numberToString_intCast f _ hmabs, numberToString_intCast f _ hrabs,
      padStart_two_digits r hr60]
    rfl

theorem isDouble_natCast (n : Nat) (h : n < 2 ^ 53) : IsDouble (n : ℚ) :=
  ⟨n, 0, by rw [abs_of_nonneg (by positivity)]; exact_mod_cast h, by norm_num, by norm_num,
    by simp⟩

theorem matchesExtension_dot (rest : List Char) :
    matchesExtension ('.' :: rest) =
      (!rest.isEmpty && rest.all fun c => c != '/' && c != '.') := rfl

theorem matchesExtension_of_ne_dot (c : Char) (rest : List Char) (h : c ≠ '.') :
    matchesExtension (c :: rest) = false := by
  unfold matchesExtension
  split
  · next heq =>
    injection heq with h1 _
    exact absurd h1 h
  · rfl

theorem matchesExtension_of_dot_mem (c : Char) (rest : List Char) (h : '.' ∈ rest) :
    matchesExtension (c :: rest) = false := by
  by_cases hc : c = '.'
  · subst hc
    rw [matchesExtension_dot]
    have : (rest.all fun c => c != '/' && c != '.') = false := by
      rw [List.all_eq_false]
      exact ⟨'.', h, by simp⟩
    rw [this, Bool.and_false]
  · exact matchesExtension_of_ne_dot c rest hc

theorem stripExtensionChars_append (base ext : List Char) (hne : ext ≠ [])
    (hext : ∀ c ∈ ext, c ≠ '.' ∧ c ≠ '/') :
    stripExtensionChars (base ++ '.' :: ext) = base := by
  induction base with
  | nil =>
    have hm : matchesExtension ('.' :: ext) = true := by
      rw [matchesExtension_dot]
      have h1 : ext.isEmpty = false := by
        cases ext with
        | nil => exact absurd rfl hne
        | cons a as => rfl
      have h2 : (ext.all fun c => c != '/' && c != '.') = true := by
        rw [List.all_eq_true]
        intro c hc
        have := hext c hc
        simp [this.1, this.2]
      rw [h1, h2]
      rfl
    show stripExtensionChars ('.' :: ext) = []
    unfold stripExtensionChars
    rw [if_pos hm]
  | cons b bs ih =>
    have hm : matchesExtension (b :: (bs ++ '.' :: ext)) = false :=
      matchesExtension_of_dot_mem b _ (by simp)
    show stripExtensionChars (b :: (bs ++ '.' :: ext)) = b :: bs
    unfold stripExtensionChars
    rw [if_neg (by rw [hm]; exact Bool.false_ne_true), ih]

theorem stripExtensionChars_of_no_dot (cs : List Char) (h : '.' ∉ cs) :
    stripExtensionChars cs = cs := by
  induction cs with
  | nil => rfl
  | cons c cs ih =>
    have hc : c ≠ '.' := fun e => h (by rw [e]; exact List.mem_cons_self _ _)
    have hcs : '.' ∉ cs := fun e => h (List.mem_cons_of_mem _ e)
    unfold stripExtensionChars
    rw [if_neg (by rw [matchesExtension_of_ne_dot c cs hc]; exact Bool.false_ne_true), ih hcs]

/-- C10: `handleFileUpload` leaves the old playlist followed by one new track per file
of the batch that passes the test (type starting with "audio/" and size below
`50 * 1024 * 1024`), in batch order, whatever files are rejected in between; each new
track has `saved = false` and the file name with its extension stripped as title: a
final `.ext` (with `ext` non-empty, free of `.` and `/`) is removed, and a name without
a dot is kept. -/
theorem handleFileUpload_spec :
    (∀ (files : List Upload) (p : Player),
      (handleFileUpload files p).playlist =
        p.playlist ++ (files.filter fun u => accepted u.file).map newTrack) ∧
    (∀ f : File,
      accepted f = true ↔ startsWith f.type "audio/" = true ∧ f.size < 50 * 1024 * 1024) ∧
    (∀ u : Upload,
      (newTrack u).title = stripExtension u.file.name ∧ (newTrack u).saved = false) ∧
    (∀ base ext : List Char, ext ≠ [] → (∀ c ∈ ext, c ≠ '.' ∧ c ≠ '/') →
      stripExtension (String.mk (base ++ '.' :: ext)) = String.mk base) ∧
    (∀ name : String, '.' ∉ name.data → stripExtension name = name) := by
  refine ⟨?_, ?_, ?_, ?_, ?_⟩
  · intro files p
    exact foldl_importFile_playlist files p
  · intro f
    simp [accepted, maxFileSize]
  · intro u
    exact ⟨rfl, rfl⟩
  · intro base ext hne hext
    unfold stripExtension
    rw [stripExtensionChars_append base ext hne hext]
  · intro name h
    unfold stripExtension
    rw [stripExtensionChars_of_no_dot name.data h]

/-- Witness of C10: the name "My Song.live.mp3" loses ".mp3", and the sample batch adds
the one accepted file after the oversized and the non-audio file were passed over. -/
theorem handleFileUpload_spec_witness :
    stripExtension (String.mk ("My Song.live".data ++ '.' :: "mp3".data)) =
        String.mk "My Song.live".data
      ∧ (handleFileUpload sampleBatch (playerOf [trackA] 0 false true)).playlist =
        [trackA, newTrack songUpload]
      ∧ (newTrack songUpload).title = "My Song.live" :=
  ⟨handleFileUpload_spec.2.2.2.1 "My Song.live".data "mp3".data (by decide) (by decide),
   handleFileUpload_spec.1 sampleBatch (playerOf [trackA] 0 false true),
   by decide⟩

/-- The fraction of `dragProgress` is clamped: over a bar of positive width it lies in
`[0, 1]`, is 0 left of the bar, 1 right of it, and is monotone in the pointer position. -/
theorem dragPercent_clamped (rect : Rect) (hw : 0 < rect.width) :
    (∀ x : ℚ, 0 ≤ dragPercent x rect ∧ dragPercent x rect ≤ 1) ∧
    (∀ x : ℚ, x ≤ rect.left → dragPercent x rect = 0) ∧
    (∀ x : ℚ, rect.left + rect.width ≤ x → dragPercent x rect = 1) ∧
    (∀ x y : ℚ, x ≤ y → dragPercent x rect ≤ dragPercent y rect) := by
  refine ⟨?_, ?_, ?_, ?_⟩
  · intro x
    unfold dragPercent
    exact ⟨le_max_left _ _, max_le (by norm_num) (min_le_left _ _)⟩
  · intro x hx
    unfold dragPercent
    have : (x - rect.left) / rect.width ≤ 0 :=
      div_nonpos_of_nonpos_of_nonneg (by linarith) hw.le
    rw [max_eq_left]
    exact le_trans (min_le_right _ _) this
  · intro x hx
    unfold dragPercent
    have : 1 ≤ (x - rect.left) / rect.width := by
      rw [le_div_iff₀ hw]; linarith
    rw [min_eq_left this, max_eq_right (by norm_num)]
  · intro x y hxy
    unfold dragPercent
    have : (x - rect.left) / rect.width ≤ (y - rect.left) / rect.width :=
      div_le_div_of_nonneg_right (by linarith) hw.le
    exact max_le_max (le_refl _) (min_le_min (le_refl _) this)

/-- The fraction of `seekTo` is the affine map of the pointer position: monotone, and
in `[0, 1]` exactly for a pointer over the bar. -/
theorem seekPercent_affine (rect : Rect) (hw : 0 < rect.width) :
    (∀ x y : ℚ, x ≤ y → seekPercent x rect ≤ seekPercent y rect) ∧
    (∀ x : ℚ, (0 ≤ seekPercent x rect ∧ seekPercent x rect ≤ 1) ↔
      (rect.left ≤ x ∧ x ≤ rect.left + rect.width)) := by
  refine ⟨?_, ?_⟩
  · intro x y hxy
    unfold seekPercent
    exact div_le_div_of_nonneg_right (by linarith) hw.le
  · intro x
    unfold seekPercent
    rw [le_div_iff₀ hw, div_le_iff₀ hw]
    constructor
    · rintro ⟨h1, h2⟩; constructor <;> linarith
    · rintro ⟨h1, h2⟩; constructor <;> linarith

/-- C8 (evaluation at the failing input): over a bar at `left = 10` of width 100 and a
duration of 200, a click at `clientX = 120` makes `seekTo` use the fraction 11/10 and
commit the time 220, and a click at `clientX = 0` the fraction -1/10 and the time -20:
`seekTo` does not clamp. `dragProgress` at `clientX = 120` uses the fraction 1 and
commits 200. -/
theorem seekTo_fraction_not_clamped :
    seekPercent 120 { left := 10, width := 100 } = 11 / 10
      ∧ (seekTo 120 { left := 10, width := 100 }
          { duration := some 200, currentTime := 0 }).currentTime = 220
      ∧ seekPercent 0 { left := 10, width := 100 } = -1 / 10
      ∧ (seekTo 0 { left := 10, width := 100 }
          { duration := some 200, currentTime := 0 }).currentTime = -20
      ∧ dragPercent 120 { left := 10, width := 100 } = 1
      ∧ (dragProgress true (PointerEvent.mouse 120) { left := 10, width := 100 }
          { duration := some 200, currentTime := 0 }).currentTime = 200 := by
  refine ⟨?_, ?_, ?_, ?_, ?_, ?_⟩ <;> norm_num [seekPercent, seekTo, dragPercent, dragProgress]

/-! ## Startup -/

theorem loadSavedPlaylist_index (p : Player) (l : List StoredTrack) (s : String) (n : Int)
    (hl : p.storage.musicPlayerPlaylist = some l)
    (hs : p.storage.musicPlayerCurrentIndex = some s)
    (hne : s ≠ "") (hn : parseInt s = some n)
    (hlt : n < ((l.filterMap fromStored).length : Int)) :
    (loadSavedPlaylist p).currentTrackIndex = n := by
  unfold loadSavedPlaylist
  rw [hl]
  dsimp only
  rw [hs]
  dsimp only
  rw [if_pos hne, hn]
  dsimp only
  rw [if_pos hlt]

theorem init_of_nonempty (p : Player) (h : (loadSavedPlaylist p).playlist ≠ []) :
    (init p).currentTrackIndex = 0
      ∧ (init p).playlist = (loadSavedPlaylist p).playlist
      ∧ (init p).storage.musicPlayerCurrentIndex = some "0" := by
  have hpos : 0 < (loadSavedPlaylist p).playlist.length := List.length_pos.2 h
  have hlt : (0 : Int) < ((loadSavedPlaylist p).playlist.length : Int) := by omega
  obtain ⟨t, ht⟩ := getTrack_of_inRange (loadSavedPlaylist p).playlist 0 (le_refl _) hlt
  have hinit : init p = loadTrack 0 (loadSavedPlaylist p) := by
    unfold init
    dsimp only
    rw [if_pos hpos]
  rw [hinit, loadTrack_of_some ht]
  exact ⟨rfl, rfl, rfl⟩

/-- C11: the persisted current index does not survive a reload. Whenever the playlist
that `loadSavedPlaylist` rehydrates is non-empty, `init` ends with `currentTrackIndex = 0`
(and has written "0" back as the stored index), whatever index was stored; and
`loadSavedPlaylist` restores every stored index that parses to a number below the
playlist length, a negative one included: with two durable tracks in the store, the
stored index "1" is restored as 1 and "-1" as -1, and startup ends at 0 for both. -/
theorem persisted_index_not_restored :
    (∀ p : Player, (loadSavedPlaylist p).playlist ≠ [] →
      (init p).currentTrackIndex = 0
        ∧ (init p).playlist = (loadSavedPlaylist p).playlist
        ∧ (init p).storage.musicPlayerCurrentIndex = some "0") ∧
    (∀ (p : Player) (l : List StoredTrack) (s : String) (n : Int),
      p.storage.musicPlayerPlaylist = some l →
      p.storage.musicPlayerCurrentIndex = some s →
      s ≠ "" → parseInt s = some n → n < ((l.filterMap fromStored).length : Int) →
      (loadSavedPlaylist p).currentTrackIndex = n) ∧
    (loadSavedPlaylist (initial (sampleStore "1"))).currentTrackIndex = 1 ∧
    (loadSavedPlaylist (initial (sampleStore "-1"))).currentTrackIndex = -1 ∧
    (loadSavedPlaylist (initial (sampleStore "-1"))).playlist = [trackA, trackC] ∧
    (init (initial (sampleStore "1"))).currentTrackIndex = 0 ∧
    (init (initial (sampleStore "-1"))).currentTrackIndex = 0 := by
  refine ⟨init_of_nonempty, loadSavedPlaylist_index, ?_, ?_, ?_, ?_, ?_⟩ <;> decide

/-- Witness of C11: startup over the sample store with stored index "1", and the stored
index "-1" passing the check of `loadSavedPlaylist`. -/
theorem persisted_index_not_restored_witness :
    ((init (initial (sampleStore "1"))).currentTrackIndex = 0
        ∧ (init (initial (sampleStore "1"))).playlist =
            (loadSavedPlaylist (initial (sampleStore "1"))).playlist
        ∧ (init (initial (sampleStore "1"))).storage.musicPlayerCurrentIndex = some "0")
      ∧ (loadSavedPlaylist (initial (sampleStore "-1"))).currentTrackIndex = -1 :=
  ⟨persisted_index_not_restored.1 (initial (sampleStore "1")) (by decide),
   persisted_index_not_restored.2.1 (initial (sampleStore "-1"))
     [toStored trackA, toStored trackB, toStored trackC] "-1" (-1) rfl rfl
     (by decide) (by decide) (by decide)⟩

theorem doubleExponent_eq (x : ℚ) (L : Int) (hpos : 0 < x)
    (h1 : (2 : ℚ) ^ L ≤ x) (h2 : x < (2 : ℚ) ^ (L + 1)) (hL : -1022 ≤ L) :
    doubleExponent x = L := by
  have a1 : L ≤ Int.log 2 x :=
    (Int.zpow_le_iff_le_log (by norm_num) hpos).1 (by rw [Nat.cast_ofNat]; exact h1)
  have a2 : Int.log 2 x < L + 1 :=
    (Int.lt_zpow_iff_log_lt (by norm_num) hpos).1 (by rw [Nat.cast_ofNat]; exact h2)
  unfold doubleExponent
  rw [abs_of_pos hpos]
  have : Int.log 2 x = L := by omega
  rw [this]
  exact max_eq_left hL

theorem roundDouble_large_quotient :
    roundDouble ((10 : ℚ) ^ 21 / 60) = JsNumber.fin 16666666666666665984 := by
  have hE : doubleExponent ((10 : ℚ) ^ 21 / 60) = 63 :=
    doubleExponent_eq _ 63 (by norm_num) (by norm_num) (by norm_num) (by norm_num)
  have hu : ulp ((10 : ℚ) ^ 21 / 60) = 2048 := by
    unfold ulp
    rw [hE]
    norm_num
  have hfl : ⌊(10 : ℚ) ^ 21 / 60 / 2048⌋ = 8138020833333333 := by
    rw [Int.floor_eq_iff]
    constructor <;> norm_num
  have hr : roundHalfEven ((10 : ℚ) ^ 21 / 60 / 2048) = 8138020833333333 := by
    unfold roundHalfEven
    rw [hfl, if_pos (by norm_num)]
  unfold roundDouble
  dsimp only
  rw [hu, hr, if_neg (by norm_num), if_neg (by norm_num)]
  norm_num

theorem formatTime_posInf (f : ℚ → String) :
    formatTime f JsNumber.posInf = "Infinity:NaN" := by
  rfl

theorem not_minutes_seconds_infinity (m r : Nat) :
    "Infinity:NaN" ≠
      toString m ++ ":" ++ String.mk [Nat.digitChar (r / 10), Nat.digitChar (r % 10)] := by
  intro h
  have h1 := congrArg (fun t : String => t.data.getLast?) h
  simp only [String.data_append] at h1
  rw [List.getLast?_append] at h1
  have hlt : r % 10 < 10 := Nat.mod_lt _ (by norm_num)
  have h2 : ∀ d : Nat, d < 10 → Nat.digitChar d ≠ 'N' := by decide
  have h3 : some 'N' = some (Nat.digitChar (r % 10)) := by
    simpa using h1
  exact h2 _ hlt (Option.some.inj h3).symm

/-- C9 (counterexample): `Infinity` is a non-negative number that `formatTime` receives
(the duration of unbounded media) and its result "Infinity:NaN" is not a decimal, a colon
and two digits; and for the double `10 ^ 21` the minutes the code computes, the floor of
the rounded quotient, are 16666666666666665984 and not `⌊10 ^ 21 / 60⌋`. -/
theorem formatTime_infinity_counterexample :
    formatTime (fun _ => "") JsNumber.posInf = "Infinity:NaN"
      ∧ (¬ ∃ m r : Nat, formatTime (fun _ => "") JsNumber.posInf =
          toString m ++ ":" ++ String.mk [Nat.digitChar (r / 10), Nat.digitChar (r % 10)])
      ∧ IsDouble ((10 : ℚ) ^ 21)
      ∧ mathFloor (numDiv (JsNumber.fin ((10 : ℚ) ^ 21)) 60) =
          JsNumber.fin 16666666666666665984
      ∧ ⌊(10 : ℚ) ^ 21 / 60⌋ = 16666666666666666666 := by
  refine ⟨rfl, ?_, ?_, ?_, ?_⟩
  · rintro ⟨m, r, h⟩
    rw [formatTime_posInf] at h
    exact not_minutes_seconds_infinity m r h
  · exact ⟨476837158203125, 21, by norm_num, by norm_num, by norm_num, by norm_num⟩
  · show mathFloor (roundDouble ((10 : ℚ) ^ 21 / 60)) = _
    rw [roundDouble_large_quotient]
    show JsNumber.fin (⌊(16666666666666665984 : ℚ)⌋ : ℚ) = _
    have : ⌊(16666666666666665984 : ℚ)⌋ = 16666666666666665984 := by
      rw [Int.floor_eq_iff]
      constructor <;> norm_num
    rw [this]
    norm_num
  · rw [Int.floor_eq_iff]
    constructor <;> norm_num

/-- C9 (amended): `formatTime` renders M:SS on the finite range where doubles are exact.
For every double `s` with `0 ≤ s < 2 ^ 53`, and whatever the platform prints for other
numbers, the result is the decimal of `m = ⌊s / 60⌋`, a colon, and the two decimal digits
of `r = ⌊s - 60 * ⌊s / 60⌋⌋ = ⌊s⌋ mod 60`, which is below 60: the rounding of the
division does not change the floor, and the minutes are not reduced. `formatTime(NaN)`
is "0:00", `formatTime(Infinity)` is "Infinity:NaN", `formatTime(75)` is "1:15" and
`formatTime(5)` is "0:05". -/
theorem formatTime_finite_spec :
    (∀ (toStringOther : ℚ → String) (s : ℚ),
      IsDouble s → 0 ≤ s → s < (2 : ℚ) ^ (53 : ℕ) →
      ∃ m r : Nat,
        ⌊s / 60⌋ = (m : Int) ∧ ⌊s - 60 * (⌊s / 60⌋ : ℚ)⌋ = (r : Int) ∧
        (r : Int) = ⌊s⌋ % 60 ∧ r < 60 ∧
        formatTime toStringOther (JsNumber.fin s) =
          toString m ++ ":" ++ String.mk [Nat.digitChar (r / 10), Nat.digitChar (r % 10)]) ∧
    (∀ toStringOther : ℚ → String, formatTime toStringOther JsNumber.nan = "0:00") ∧
    (∀ toStringOther : ℚ → String,
      formatTime toStringOther JsNumber.posInf = "Infinity:NaN") ∧
    (∀ toStringOther : ℚ → String, formatTime toStringOther (JsNumber.fin 75) = "1:15") ∧
    (∀ toStringOther : ℚ → String, formatTime toStringOther (JsNumber.fin 5) = "0:05") := by
  refine ⟨formatTime_of_double, fun _ => rfl, formatTime_posInf, ?_, ?_⟩
  · intro f
    obtain ⟨m, r, hm, _, hr, _, hf⟩ :=
      formatTime_of_double f 75 (by exact_mod_cast isDouble_natCast 75 (by norm_num))
        (by norm_num) (by norm_num)
    have e1 : ⌊(75 : ℚ) / 60⌋ = 1 := by
      rw [Int.floor_eq_iff]; constructor <;> norm_num
    have e2 : ⌊(75 : ℚ)⌋ = 75 := by
      rw [Int.floor_eq_iff]; constructor <;> norm_num
    have hm1 : m = 1 := by omega
    have hr1 : r = 15 := by omega
    rw [hf, hm1, hr1]
    rfl
  · intro f
    obtain ⟨m, r, hm, _, hr, _, hf⟩ :=
      formatTime_of_double f 5 (by exact_mod_cast isDouble_natCast 5 (by norm_num))
        (by norm_num) (by norm_num)
    have e1 : ⌊(5 : ℚ) / 60⌋ = 0 := by
      rw [Int.floor_eq_iff]; constructor <;> norm_num
    have e2 : ⌊(5 : ℚ)⌋ = 5 := by
      rw [Int.floor_eq_iff]; constructor <;> norm_num
    have hm1 : m = 0 := by omega
    have hr1 : r = 5 := by omega
    rw [hf, hm1, hr1]
    rfl

/-- Witness of C9: the double 75.5 (151 halves) decomposes into minutes and seconds. -/
theorem formatTime_finite_spec_witness :
    ∃ m r : Nat,
      ⌊(151 / 2 : ℚ) / 60⌋ = (m : Int) ∧
      ⌊(151 / 2 : ℚ) - 60 * (⌊(151 / 2 : ℚ) / 60⌋ : ℚ)⌋ = (r : Int) ∧
      (r : Int) = ⌊(151 / 2 : ℚ)⌋ % 60 ∧ r < 60 ∧
      formatTime (fun _ => "") (JsNumber.fin (151 / 2)) =
        toString m ++ ":" ++ String.mk [Nat.digitChar (r / 10), Nat.digitChar (r % 10)] :=
  formatTime_finite_spec.1 (fun _ => "") (151 / 2)
    ⟨151, -1, by norm_num, by norm_num, by norm_num, by norm_num⟩
    (by norm_num) (by norm_num)

end MusicPlayer
